import Mathlib

/-!
Verification of a recursive-descent JSON parser.

The parser operates on a cursor into the input text; we model the cursor as
a `List Char` (the remaining unconsumed input).  Every parser returns the
pair of the advanced cursor and an optionally decoded value.

Modelling conventions:
* Rust `&str` cursors become `List Char`.
* Rust `f64` values are modelled by exact rationals (`ℚ`); every arithmetic
  operation the float parser performs (integer-to-float conversion of values
  within the claims' scope, addition, division by 10, comparison with 1.0)
  is exact on the inputs appearing in the development.
* `str::parse::<i64>` on a nonempty all-digit string succeeds exactly when
  the decoded value fits below the signed 64-bit bound and never yields a
  negative value, which `parse_i64` reproduces.
* The mutually recursive composite parsers are defined with an explicit
  fuel parameter (`Nat`); fuel `0` yields a failing parse with the cursor
  unchanged.  The exported entry points supply `8 * length + 8` fuel, which
  is ample because every loop iteration and every recursive dispatch first
  consumes at least one character.  All general theorems are proved for
  every fuel value, so nothing depends on the particular fuel bound.
-/

inductive JsonValue where
  | Null : JsonValue
  | Bool (b : Bool) : JsonValue
  | Integer (n : Int) : JsonValue
  | Float (q : ℚ) : JsonValue
  | String (s : List Char) : JsonValue
  | Array (vs : List JsonValue) : JsonValue
  | Object (kvs : List (List Char × JsonValue)) : JsonValue

/-- Rust `char::is_ascii_digit`. -/
def is_ascii_digit (c : Char) : Bool := '0' ≤ c && c ≤ '9'

/-- Rust `char::is_whitespace` (the Unicode White_Space property). -/
def rustIsWhitespace (c : Char) : Bool :=
  c = ' ' || ('\u0009' ≤ c && c ≤ '\u000D') || c = '\u0085' || c = '\u00A0' ||
  c = '\u1680' || ('\u2000' ≤ c && c ≤ '\u200A') || c = '\u2028' ||
  c = '\u2029' || c = '\u202F' || c = '\u205F' || c = '\u3000'

/-- `JsonValue::parse_char`: match a single expected character at the head. -/
def parse_char (src : List Char) (value : Char) : List Char × Option Char :=
  match src with
  | [] => (src, none)
  | c :: rest => if c = value then (rest, some value) else (src, none)

/-- `JsonValue::parse_sequence`: match a fixed literal at the head. -/
def parse_sequence (src seq : List Char) : List Char × Option (List Char) :=
  if seq.isPrefixOf src then (src.drop seq.length, some seq) else (src, none)

/-- `JsonValue::parse_span`: consume the maximal leading run of characters
satisfying `pred`; always succeeds, possibly with an empty span. -/
def parse_span (src : List Char) (pred : Char → Bool) : List Char × List Char :=
  (src.dropWhile pred, src.takeWhile pred)

/-- `JsonValue::parse_whitespaces`. -/
def parse_whitespaces (src : List Char) : List Char × List Char :=
  parse_span src rustIsWhitespace

/-- `JsonValue::parse_null`. -/
def parse_null (src : List Char) : List Char × Option JsonValue :=
  match parse_sequence src ("null".data) with
  | (src1, sub_string) => (src1, sub_string.map (fun _ => JsonValue.Null))

/-- `JsonValue::parse_bool`. -/
def parse_bool (src : List Char) : List Char × Option JsonValue :=
  match parse_sequence src ("true".data) with
  | (new_src, some _) => (new_src, some (JsonValue.Bool true))
  | (_, none) =>
    match parse_sequence src ("false".data) with
    | (new_src, some _) => (new_src, some (JsonValue.Bool false))
    | (_, none) => (src, none)

/-- Decimal value of a digit run, as accumulated by `str::parse::<i64>`. -/
def digitsToNat (ds : List Char) : Nat :=
  ds.foldl (fun acc c => 10 * acc + (c.toNat - '0'.toNat)) 0

/-- The value of `i64::MAX`. -/
def i64MaxNat : Nat := 9223372036854775807

/-- `str::parse::<i64>` applied to a nonempty all-digit string: succeeds
with the decoded value exactly when it fits a signed 64-bit integer. -/
def parse_i64 (ds : List Char) : Option Int :=
  if digitsToNat ds ≤ i64MaxNat then some ((digitsToNat ds : Int)) else none

/-- `JsonValue::parse_integer`.  Note that the digit span is consumed before
the 64-bit range check, so an overflowing run is consumed even though no
value is produced. -/
def parse_integer (src : List Char) : List Char × Option JsonValue :=
  match parse_span src is_ascii_digit with
  | (src1, sub_string) =>
    if sub_string.isEmpty then (src1, none)
    else (src1, (parse_i64 sub_string).map JsonValue.Integer)

/-- The `while 1.0 < frac_part { frac_part /= 10.0 }` normalization loop of
`parse_float`, with enough fuel for any value produced by `parse_i64`
(every such value is below `10 ^ 64`). -/
def normLoop : Nat → ℚ → ℚ
  | 0, q => q
  | fuel + 1, q => if 1 < q then normLoop fuel (q / 10) else q

/-- `JsonValue::parse_float`.  The `unreachable_unchecked` arms of the
source (a successful `parse_integer` always carries an `Integer`) are
mapped to the same default as the `None` arm. -/
def parse_float (src : List Char) : List Char × Option JsonValue :=
  match parse_integer src with
  | (new_src1, whole_value) =>
    let wh : Int × Bool :=
      match whole_value with
      | some (JsonValue.Integer value) => (value, true)
      | _ => ((0 : Int), false)
    match parse_char new_src1 '.' with
    | (_, none) => (src, none)
    | (new_src2, some _) =>
      match parse_integer new_src2 with
      | (new_src3, frac_value) =>
        let fr : Int × Bool :=
          match frac_value with
          | some (JsonValue.Integer value) => (value, true)
          | _ => ((0 : Int), false)
        if !wh.2 && !fr.2 then (src, none)
        else (new_src3, some (JsonValue.Float ((wh.1 : ℚ) + normLoop 64 ((fr.1 : ℚ)))))

/-- The escaped-quote continuation loop of `parse_string` together with the
final closing-quote match.  `string` is the content accumulated so far;
the result is `none` on a hard failure (missing quote), otherwise the
remaining cursor and the decoded content.  Fuel decreases once per loop
iteration; each iteration consumes at least the quote character. -/
def stringBodyF : Nat → List Char → List Char → Option (List Char × List Char)
  | fuel, src, string =>
    if string.getLast? = some '\\' then
      match fuel with
      | 0 => none
      | fuel + 1 =>
        match parse_char src '"' with
        | (_, none) => none
        | (src2, some _) =>
          match parse_span src2 (fun c => c != '"') with
          | (src3, tail) => stringBodyF fuel src3 (string ++ '"' :: tail)
    else
      match parse_char src '"' with
      | (_, none) => none
      | (src2, some _) => some (src2, string)

/-- `JsonValue::parse_string`. -/
def parse_string (src : List Char) : List Char × Option JsonValue :=
  match parse_char src '"' with
  | (_, none) => (src, none)
  | (src1, some _) =>
    match parse_span src1 (fun c => c != '"') with
    | (src2, string) =>
      match stringBodyF (src.length + 1) src2 string with
      | none => (src, none)
      | some (src3, out) => (src3, some (JsonValue.String out))

/-- `HashMap::insert`: overwrite the entry of an existing key, otherwise
append a new entry. -/
def hmInsert (m : List (List Char × JsonValue)) (k : List Char) (v : JsonValue) :
    List (List Char × JsonValue) :=
  if m.any (fun p => p.1 == k) then
    m.map (fun p => if p.1 == k then (k, v) else p)
  else m ++ [(k, v)]

mutual

/-- `JsonValue::parse_value`: try the parsers in the fixed priority order
null, boolean, float, integer, string, array, object via `parse_try`. -/
def parse_valueF : Nat → List Char → List Char × Option JsonValue
  | 0, src => (src, none)
  | fuel + 1, src =>
    parse_try src
      [parse_null, parse_bool, parse_float, parse_integer, parse_string,
        parse_arrayF fuel, parse_objectF fuel]

/-- `JsonValue::parse_try`: run the parsers in order over the threaded
cursor, returning at the first produced value. -/
def parse_try : List Char → List (List Char → List Char × Option JsonValue) →
    List Char × Option JsonValue
  | src, [] => (src, none)
  | src, p :: ps =>
    match p src with
    | (src1, some value) => (src1, some value)
    | (src1, none) => parse_try src1 ps

/-- `JsonValue::parse_array`. -/
def parse_arrayF : Nat → List Char → List Char × Option JsonValue
  | 0, src => (src, none)
  | fuel + 1, src =>
    match parse_char src '[' with
    | (_, none) => (src, none)
    | (src1, some _) =>
      match parse_span src1 (fun c => rustIsWhitespace c) with
      | (src2, _) =>
        match arrLoopF fuel src2 [] with
        | (src3, values) =>
          match parse_whitespaces src3 with
          | (src4, _) =>
            match parse_char src4 ']' with
            | (_, none) => (src, none)
            | (src5, some _) => (src5, some (JsonValue.Array values))

/-- The element loop of `parse_array`: parse a value (breaking softly with
the threaded cursor if none), then stop unless a comma follows. -/
def arrLoopF : Nat → List Char → List JsonValue → List Char × List JsonValue
  | 0, src, values => (src, values)
  | fuel + 1, src, values =>
    match parse_valueF fuel src with
    | (src1, none) => (src1, values)
    | (src1, some value) =>
      match parse_whitespaces src1 with
      | (src2, _) =>
        match parse_char src2 ',' with
        | (src3, none) => (src3, values ++ [value])
        | (src3, some _) =>
          match parse_whitespaces src3 with
          | (src4, _) => arrLoopF fuel src4 (values ++ [value])

/-- `JsonValue::parse_object`. -/
def parse_objectF : Nat → List Char → List Char × Option JsonValue
  | 0, src => (src, none)
  | fuel + 1, src =>
    match parse_char src '{' with
    | (_, none) => (src, none)
    | (src1, some _) =>
      match parse_span src1 (fun c => rustIsWhitespace c) with
      | (src2, _) =>
        match objLoopF fuel src2 [] with
        | none => (src, none)
        | some (src3, values) =>
          match parse_whitespaces src3 with
          | (src4, _) =>
            match parse_char src4 '}' with
            | (_, none) => (src, none)
            | (src5, some _) => (src5, some (JsonValue.Object values))

/-- The member loop of `parse_object`: a missing key breaks softly with the
threaded cursor; a missing colon or missing value is a hard failure
(`none`), which `parse_objectF` turns into a failure at the original
cursor. -/
def objLoopF : Nat → List Char → List (List Char × JsonValue) →
    Option (List Char × List (List Char × JsonValue))
  | 0, _, _ => none
  | fuel + 1, src, values =>
    match parse_string src with
    | (src1, some (JsonValue.String key)) =>
      match parse_whitespaces src1 with
      | (src2, _) =>
        match parse_char src2 ':' with
        | (_, none) => none
        | (src3, some _) =>
          match parse_whitespaces src3 with
          | (src4, _) =>
            match parse_valueF fuel src4 with
            | (_, none) => none
            | (src5, some value) =>
              match parse_whitespaces src5 with
              | (src6, _) =>
                match parse_char src6 ',' with
                | (src7, none) => some (src7, hmInsert values key value)
                | (src7, some _) =>
                  match parse_whitespaces src7 with
                  | (src8, _) => objLoopF fuel src8 (hmInsert values key value)
    | (src1, _) => some (src1, values)

end

/-- Fuel supplied to the exported parsers; ample for any input. -/
def parserFuel (src : List Char) : Nat := 8 * src.length + 8

/-- The exported `parse_value`. -/
def parse_value (src : List Char) : List Char × Option JsonValue :=
  parse_valueF (parserFuel src) src

/-- The exported `parse_array`. -/
def parse_array (src : List Char) : List Char × Option JsonValue :=
  parse_arrayF (parserFuel src) src

/-- The exported `parse_object`. -/
def parse_object (src : List Char) : List Char × Option JsonValue :=
  parse_objectF (parserFuel src) src

/-- Rust `str::trim`: drop leading and trailing whitespace. -/
def rustTrim (s : List Char) : List Char :=
  ((s.dropWhile rustIsWhitespace).reverse.dropWhile rustIsWhitespace).reverse

/-- `FromStr for JsonValue`: trim, dispatch once, and require that the
whole input was consumed. -/
def from_str (src : List Char) : Except (List Char) JsonValue :=
  match parse_value (rustTrim src) with
  | (rest, none) =>
    Except.error (("failed to parse \"").data ++ rest ++ ("\"").data)
  | (rest, some value) =>
    if rest.isEmpty then Except.ok value
    else
      Except.error
        (("failed to parse entire value, reminder: \"").data ++ rest ++ ("\"").data)

lemma parse_char_cases (s : List Char) (c : Char) :
    parse_char s c = (s, none) ∨ s = c :: (parse_char s c).1 ∧ parse_char s c = ((parse_char s c).1, some c) := by
  match s with
  | [] => exact Or.inl rfl
  | a :: rest =>
    by_cases h : a = c
    · subst h; right; constructor <;> simp [parse_char]
    · left; simp [parse_char, h]

lemma parse_char_fail {s : List Char} {c : Char} (h : (parse_char s c).2 = none) :
    (parse_char s c).1 = s := by
  rcases parse_char_cases s c with h1 | ⟨h1, h2⟩
  · rw [h1]
  · rw [h2] at h; simp at h

lemma parse_sequence_cases (s q : List Char) :
    parse_sequence s q = (s, none) ∨ parse_sequence s q = (s.drop q.length, some q) := by
  unfold parse_sequence; split
  · exact Or.inr rfl
  · exact Or.inl rfl

lemma parse_null_fail {s : List Char} (h : (parse_null s).2 = none) :
    (parse_null s).1 = s := by
  rcases parse_sequence_cases s ("null".data) with h1 | h1 <;>
    simp [parse_null, h1] at h ⊢

lemma parse_bool_fail {s : List Char} (h : (parse_bool s).2 = none) :
    (parse_bool s).1 = s := by
  rcases parse_sequence_cases s ("true".data) with h1 | h1 <;>
    rcases parse_sequence_cases s ("false".data) with h2 | h2 <;>
      simp [parse_bool, h1, h2] at h ⊢

lemma parse_float_cases (s : List Char) :
    parse_float s = (s, none) ∨ ∃ r v, parse_float s = (r, some v) := by
  unfold parse_float
  rcases h1 : parse_integer s with ⟨s1, w⟩
  dsimp only
  rcases h2 : parse_char s1 '.' with ⟨s2, pt⟩
  cases pt
  · left; rfl
  · dsimp only
    rcases h3 : parse_integer s2 with ⟨s3, f⟩
    dsimp only
    split
    · left; rfl
    · right; exact ⟨_, _, rfl⟩

lemma parse_float_fail {s : List Char} (h : (parse_float s).2 = none) :
    (parse_float s).1 = s := by
  rcases parse_float_cases s with h1 | ⟨r, v, h1⟩
  · rw [h1]
  · rw [h1] at h; simp at h


lemma parse_integer_eq (s : List Char) :
    parse_integer s =
      (s.dropWhile is_ascii_digit,
        if s.takeWhile is_ascii_digit = [] then none
        else if digitsToNat (s.takeWhile is_ascii_digit) ≤ i64MaxNat then
          some (JsonValue.Integer ((digitsToNat (s.takeWhile is_ascii_digit) : Int)))
        else none) := by
  unfold parse_integer parse_span parse_i64
  dsimp only
  by_cases h : s.takeWhile is_ascii_digit = []
  · simp [h]
  · by_cases h2 : digitsToNat (s.takeWhile is_ascii_digit) ≤ i64MaxNat <;>
      simp [h, h2, List.isEmpty_iff]

lemma parse_integer_fail_of_le {s : List Char}
    (hle : digitsToNat (s.takeWhile is_ascii_digit) ≤ i64MaxNat)
    (h : (parse_integer s).2 = none) : (parse_integer s).1 = s := by
  rw [parse_integer_eq] at h ⊢
  by_cases he : s.takeWhile is_ascii_digit = []
  · have hs := List.takeWhile_append_dropWhile is_ascii_digit s
    rw [he] at hs
    simpa using hs
  · simp [he, hle] at h

lemma normLoop_of_not_lt {q : ℚ} (h : ¬ 1 < q) : ∀ f, normLoop f q = q
  | 0 => rfl
  | f + 1 => by simp [normLoop, h]

lemma normLoop_step {q : ℚ} (h : 1 < q) (f : ℕ) :
    normLoop (f + 1) q = normLoop f (q / 10) := by
  simp [normLoop, h]

lemma takeWhile_append_of_all {p : Char → Bool} {l r : List Char}
    (h : ∀ c ∈ l, p c = true) : (l ++ r).takeWhile p = l ++ r.takeWhile p := by
  induction l with
  | nil => rfl
  | cons a as ih =>
    have hpa : p a = true := h a (List.mem_cons_self a as)
    have htail := ih fun c hc => h c (List.mem_cons_of_mem a hc)
    simp [List.takeWhile_cons, hpa, htail]

lemma dropWhile_append_of_all {p : Char → Bool} {l r : List Char}
    (h : ∀ c ∈ l, p c = true) : (l ++ r).dropWhile p = r.dropWhile p := by
  induction l with
  | nil => rfl
  | cons a as ih =>
    have hpa : p a = true := h a (List.mem_cons_self a as)
    have htail := ih fun c hc => h c (List.mem_cons_of_mem a hc)
    simp [List.dropWhile_cons, hpa, htail]

lemma takeWhile_nil_of_head {p : Char → Bool} {c : Char} {t : List Char}
    (h : p c = false) : (c :: t).takeWhile p = [] := by
  simp [List.takeWhile_cons, h]

lemma dropWhile_head_false {p : Char → Bool} : ∀ {s : List Char} {c : Char} {t : List Char},
    s.dropWhile p = c :: t → p c = false := by
  intro s
  induction s with
  | nil => intro c t h; simp at h
  | cons a s ih =>
    intro c t h
    rw [List.dropWhile_cons] at h
    by_cases hp : p a
    · rw [if_pos hp] at h; exact ih h
    · rw [if_neg hp] at h
      cases h
      simpa using hp

lemma restore_of_cases {res : List Char × Option JsonValue} {s : List Char}
    (H : res = (s, none) ∨ ∃ r v, res = (r, some v)) (h : res.2 = none) :
    res.1 = s := by
  rcases H with h1 | ⟨r, v, h1⟩
  · rw [h1]
  · rw [h1] at h; simp at h

lemma parse_arrayF_cases (fuel : ℕ) (s : List Char) :
    parse_arrayF fuel s = (s, none) ∨ ∃ r v, parse_arrayF fuel s = (r, some v) := by
  cases fuel with
  | zero => exact Or.inl rfl
  | succ f =>
    unfold parse_arrayF
    repeat' split
    all_goals first | exact Or.inl rfl | (right; exact ⟨_, _, rfl⟩)

lemma parse_objectF_cases (fuel : ℕ) (s : List Char) :
    parse_objectF fuel s = (s, none) ∨ ∃ r v, parse_objectF fuel s = (r, some v) := by
  cases fuel with
  | zero => exact Or.inl rfl
  | succ f =>
    unfold parse_objectF
    repeat' split
    all_goals first | exact Or.inl rfl | (right; exact ⟨_, _, rfl⟩)

lemma parse_char_some {s : List Char} {c : Char} {s2 : List Char} {v : Char}
    (h : parse_char s c = (s2, some v)) : s = c :: s2 ∧ v = c := by
  rcases parse_char_cases s c with h1 | ⟨hs, h1⟩
  · rw [h1] at h; simp at h
  · rw [h1] at h
    simp only [Prod.mk.injEq, Option.some.injEq] at h
    obtain ⟨h2, h3⟩ := h
    rw [← h2]
    exact ⟨hs, h3.symm⟩

lemma stringBodyF_sound : ∀ (fuel : ℕ) (src acc r str : List Char),
    stringBodyF fuel src acc = some (r, str) →
    ∃ ext, str = acc ++ ext ∧ ext ++ '"' :: r = src := by
  intro fuel
  induction fuel with
  | zero =>
    intro src acc r str h
    unfold stringBodyF at h
    split at h
    · simp at h
    · split at h
      · simp at h
      · rename_i src2 val heq
        simp only [Option.some.injEq, Prod.mk.injEq] at h
        obtain ⟨hr, hstr⟩ := h
        obtain ⟨hsrc, _⟩ := parse_char_some heq
        exact ⟨[], by simp [hstr], by simp [hsrc, hr]⟩
  | succ f ih =>
    intro src acc r str h
    unfold stringBodyF at h
    split at h
    · split at h
      · simp at h
      · rename_i val heq
        obtain rfl : val = f := by omega
        split at h
        · simp at h
        · rename_i src2 v2 heq2
          obtain ⟨ext, hstr, hext⟩ := ih _ _ _ _ h
          obtain ⟨hsrc, _⟩ := parse_char_some heq2
          refine ⟨'"' :: (src2.takeWhile (fun c => c != '"')) ++ ext, ?_, ?_⟩
          · rw [hstr]
            simp [List.append_assoc]
          · rw [hsrc]
            simp only [List.cons_append, List.append_assoc, List.cons.injEq, true_and]
            rw [hext]
            exact List.takeWhile_append_dropWhile _ _
    · split at h
      · simp at h
      · rename_i src2 val heq
        simp only [Option.some.injEq, Prod.mk.injEq] at h
        obtain ⟨hr, hstr⟩ := h
        obtain ⟨hsrc, _⟩ := parse_char_some heq
        exact ⟨[], by simp [hstr], by simp [hsrc, hr]⟩

lemma parse_string_cases (s : List Char) :
    parse_string s = (s, none) ∨ ∃ r out, parse_string s = (r, some (JsonValue.String out)) := by
  unfold parse_string
  repeat' split
  all_goals first | exact Or.inl rfl | (right; exact ⟨_, _, rfl⟩)

lemma parse_string_fail {s : List Char} (h : (parse_string s).2 = none) :
    (parse_string s).1 = s := by
  rcases parse_string_cases s with h1 | ⟨r, out, h1⟩
  · rw [h1]
  · rw [h1] at h; simp at h

lemma parse_string_no_open {s : List Char} (h : s.head? ≠ some '"') :
    parse_string s = (s, none) := by
  unfold parse_string
  rcases parse_char_cases s '"' with h1 | ⟨hs, h1⟩
  · rw [h1]
  · exact absurd (by rw [hs]; rfl) h

lemma parse_string_sound {s r out : List Char}
    (h : parse_string s = (r, some (JsonValue.String out))) :
    s = '"' :: (out ++ '"' :: r) := by
  unfold parse_string at h
  split at h
  · simp at h
  · rename_i src1 v heq
    split at h
    rename_i src2 str0 heqSpan
    split at h
    · simp at h
    · rename_i src3 out2 heqB
      simp only [Prod.mk.injEq, Option.some.injEq, JsonValue.String.injEq] at h
      obtain ⟨hr, hout⟩ := h
      obtain ⟨ext, hstr, hext⟩ := stringBodyF_sound _ _ _ _ _ heqB
      obtain ⟨hsrc, _⟩ := parse_char_some heq
      have hSpan : src1.dropWhile (fun c => c != '"') = src2 ∧
          src1.takeWhile (fun c => c != '"') = str0 := by
        have h2 := heqSpan
        unfold parse_span at h2
        simpa [Prod.mk.injEq] using h2
      obtain ⟨hdrop, htake⟩ := hSpan
      rw [hsrc]
      congr 1
      calc src1
          = src1.takeWhile (fun c => c != '"') ++ src1.dropWhile (fun c => c != '"') :=
            (List.takeWhile_append_dropWhile _ _).symm
        _ = str0 ++ src2 := by rw [hdrop, htake]
        _ = str0 ++ (ext ++ '"' :: src3) := by rw [hext]
        _ = (str0 ++ ext) ++ '"' :: src3 := by rw [List.append_assoc]
        _ = out2 ++ '"' :: src3 := by rw [← hstr]
        _ = out ++ '"' :: r := by rw [hout, hr]

lemma suffix_parse_char (s : List Char) (c : Char) : (parse_char s c).1 <:+ s := by
  rcases parse_char_cases s c with h1 | ⟨hs, h1⟩
  · rw [h1]
  · conv_rhs => rw [hs]
    exact List.suffix_cons c _

lemma suffix_parse_sequence (s q : List Char) : (parse_sequence s q).1 <:+ s := by
  unfold parse_sequence
  split
  · exact List.drop_suffix _ _
  · exact List.suffix_refl _

lemma suffix_parse_span (s : List Char) (p : Char → Bool) : (parse_span s p).1 <:+ s :=
  List.dropWhile_suffix p

lemma suffix_parse_whitespaces (s : List Char) : (parse_whitespaces s).1 <:+ s :=
  List.dropWhile_suffix rustIsWhitespace

lemma suffix_parse_null (s : List Char) : (parse_null s).1 <:+ s :=
  suffix_parse_sequence s ("null".data)

lemma suffix_parse_bool (s : List Char) : (parse_bool s).1 <:+ s := by
  unfold parse_bool
  split
  · rename_i new_src val heq
    have h := suffix_parse_sequence s ("true".data)
    rw [heq] at h
    exact h
  · split
    · rename_i new_src val heq
      have h := suffix_parse_sequence s ("false".data)
      rw [heq] at h
      exact h
    · exact List.suffix_refl _

lemma suffix_parse_integer (s : List Char) : (parse_integer s).1 <:+ s := by
  rw [parse_integer_eq]
  exact List.dropWhile_suffix is_ascii_digit

lemma suffix_parse_float (s : List Char) : (parse_float s).1 <:+ s := by
  unfold parse_float
  rcases h1 : parse_integer s with ⟨s1, w⟩
  dsimp only
  have hs1 : s1 <:+ s := by
    have h := suffix_parse_integer s
    rw [h1] at h
    exact h
  rcases h2 : parse_char s1 '.' with ⟨s2, pt⟩
  cases pt
  · exact List.suffix_refl _
  · dsimp only
    have hs2 : s2 <:+ s1 := by
      have h := suffix_parse_char s1 '.'
      rw [h2] at h
      exact h
    rcases h3 : parse_integer s2 with ⟨s3, fv⟩
    dsimp only
    have hs3 : s3 <:+ s2 := by
      have h := suffix_parse_integer s2
      rw [h3] at h
      exact h
    split
    · exact List.suffix_refl _
    · exact (hs3.trans hs2).trans hs1

lemma suffix_parse_string (s : List Char) : (parse_string s).1 <:+ s := by
  rcases parse_string_cases s with h1 | ⟨r, out, h1⟩
  · rw [h1]
  · rw [h1]
    have hs := parse_string_sound h1
    refine ⟨'"' :: out ++ ['"'], ?_⟩
    rw [hs]
    simp

lemma suffix_parse_try : ∀ (ps : List (List Char → List Char × Option JsonValue)) (s : List Char),
    (∀ p ∈ ps, ∀ t, (p t).1 <:+ t) → (parse_try s ps).1 <:+ s := by
  intro ps
  induction ps with
  | nil => intro s _; exact List.suffix_refl s
  | cons p ps ih =>
    intro s h
    unfold parse_try
    rcases h1 : p s with ⟨s1, v⟩
    have hs1 : s1 <:+ s := by
      have h2 := h p (by simp) s
      rw [h1] at h2
      exact h2
    cases v
    · dsimp only
      exact (ih s1 (fun q hq t => h q (by simp [hq]) t)).trans hs1
    · exact hs1

lemma suffix_mutual : ∀ fuel : ℕ,
    (∀ s, (parse_valueF fuel s).1 <:+ s) ∧
    (∀ s, (parse_arrayF fuel s).1 <:+ s) ∧
    (∀ s vs, (arrLoopF fuel s vs).1 <:+ s) ∧
    (∀ s m r m2, objLoopF fuel s m = some (r, m2) → r <:+ s) ∧
    (∀ s, (parse_objectF fuel s).1 <:+ s) := by
  intro fuel
  induction fuel with
  | zero =>
    refine ⟨fun s => List.suffix_refl s, fun s => List.suffix_refl s,
      fun s vs => List.suffix_refl s, fun s m r m2 h => ?_, fun s => List.suffix_refl s⟩
    simp [objLoopF] at h
  | succ f ih =>
    obtain ⟨ihv, iha, ihl, ihol, iho⟩ := ih
    refine ⟨?_, ?_, ?_, ?_, ?_⟩
    · intro s
      unfold parse_valueF
      apply suffix_parse_try
      intro p hp t
      simp only [List.mem_cons, List.not_mem_nil, or_false] at hp
      rcases hp with rfl | rfl | rfl | rfl | rfl | rfl | rfl
      exacts [suffix_parse_null t, suffix_parse_bool t, suffix_parse_float t,
        suffix_parse_integer t, suffix_parse_string t, iha t, iho t]
    · intro s
      unfold parse_arrayF
      split
      · exact List.suffix_refl _
      · rename_i src1 v heq
        have h1 : src1 <:+ s := by
          have h := suffix_parse_char s '['
          rw [heq] at h
          exact h
        split
        rename_i src2 w2 heqS
        have h2 : src2 <:+ src1 := by
          have h := suffix_parse_span src1 (fun c => rustIsWhitespace c)
          rw [heqS] at h
          exact h
        split
        rename_i src3 values heqL
        have h3 : src3 <:+ src2 := by
          have h := ihl src2 []
          rw [heqL] at h
          exact h
        split
        rename_i src4 w4 heqW
        have h4 : src4 <:+ src3 := by
          have h := suffix_parse_whitespaces src3
          rw [heqW] at h
          exact h
        split
        · exact List.suffix_refl _
        · rename_i src5 v5 heqC
          have h5 : src5 <:+ src4 := by
            have h := suffix_parse_char src4 ']'
            rw [heqC] at h
            exact h
          exact (((h5.trans h4).trans h3).trans h2).trans h1
    · intro s vs
      unfold arrLoopF
      split
      · rename_i src1 heq
        have h1 : (parse_valueF f s).1 <:+ s := ihv s
        rw [heq] at h1
        exact h1
      · rename_i src1 value heq
        have h1 : src1 <:+ s := by
          have h := ihv s
          rw [heq] at h
          exact h
        split
        rename_i src2 w2 heqW
        have h2 : src2 <:+ src1 := by
          have h := suffix_parse_whitespaces src1
          rw [heqW] at h
          exact h
        split
        · rename_i src3 heqC
          have h3 : src3 <:+ src2 := by
            have h := suffix_parse_char src2 ','
            rw [heqC] at h
            exact h
          exact (h3.trans h2).trans h1
        · rename_i src3 v3 heqC
          have h3 : src3 <:+ src2 := by
            have h := suffix_parse_char src2 ','
            rw [heqC] at h
            exact h
          split
          rename_i src4 w4 heqW2
          have h4 : src4 <:+ src3 := by
            have h := suffix_parse_whitespaces src3
            rw [heqW2] at h
            exact h
          exact ((((ihl src4 _).trans h4).trans h3).trans h2).trans h1
    · intro s m r m2 h
      unfold objLoopF at h
      split at h
      · rename_i src1 key heq
        have h1 : src1 <:+ s := by
          have hx := suffix_parse_string s
          rw [heq] at hx
          exact hx
        split at h
        rename_i src2 w2 heqW
        have h2 : src2 <:+ src1 := by
          have hx := suffix_parse_whitespaces src1
          rw [heqW] at hx
          exact hx
        split at h
        · simp at h
        · rename_i src3 v3 heqC
          have h3 : src3 <:+ src2 := by
            have hx := suffix_parse_char src2 ':'
            rw [heqC] at hx
            exact hx
          split at h
          rename_i src4 w4 heqW2
          have h4 : src4 <:+ src3 := by
            have hx := suffix_parse_whitespaces src3
            rw [heqW2] at hx
            exact hx
          split at h
          · simp at h
          · rename_i src5 value heqV
            have h5 : src5 <:+ src4 := by
              have hx := ihv src4
              rw [heqV] at hx
              exact hx
            split at h
            rename_i src6 w6 heqW3
            have h6 : src6 <:+ src5 := by
              have hx := suffix_parse_whitespaces src5
              rw [heqW3] at hx
              exact hx
            split at h
            · rename_i src7 heqC2
              have h7 : src7 <:+ src6 := by
                have hx := suffix_parse_char src6 ','
                rw [heqC2] at hx
                exact hx
              simp only [Option.some.injEq, Prod.mk.injEq] at h
              obtain ⟨hr, _⟩ := h
              rw [← hr]
              exact ((((h7.trans h6).trans h5).trans h4).trans h3).trans (h2.trans h1)
            · rename_i src7 v7 heqC2
              have h7 : src7 <:+ src6 := by
                have hx := suffix_parse_char src6 ','
                rw [heqC2] at hx
                exact hx
              split at h
              rename_i src8 w8 heqW4
              have h8 : src8 <:+ src7 := by
                have hx := suffix_parse_whitespaces src7
                rw [heqW4] at hx
                exact hx
              have h9 := ihol src8 _ r m2 h
              exact ((((((h9.trans h8).trans h7).trans h6).trans h5).trans h4).trans h3).trans
                (h2.trans h1)
      · rename_i src1 other heq
        simp only [Option.some.injEq, Prod.mk.injEq] at h
        obtain ⟨hr, _⟩ := h
        rw [← hr]
        have hx := suffix_parse_string s
        rw [heq] at hx
        exact hx
    · intro s
      unfold parse_objectF
      split
      · exact List.suffix_refl _
      · rename_i src1 v heq
        have h1 : src1 <:+ s := by
          have hx := suffix_parse_char s '{'
          rw [heq] at hx
          exact hx
        split
        rename_i src2 w2 heqS
        have h2 : src2 <:+ src1 := by
          have hx := suffix_parse_span src1 (fun c => rustIsWhitespace c)
          rw [heqS] at hx
          exact hx
        split
        · exact List.suffix_refl _
        · rename_i src3 values heqL
          have h3 : src3 <:+ src2 := ihol src2 [] src3 values heqL
          split
          rename_i src4 w4 heqW
          have h4 : src4 <:+ src3 := by
            have hx := suffix_parse_whitespaces src3
            rw [heqW] at hx
            exact hx
          split
          · exact List.suffix_refl _
          · rename_i src5 v5 heqC
            have h5 : src5 <:+ src4 := by
              have hx := suffix_parse_char src4 '}'
              rw [heqC] at hx
              exact hx
            exact (((h5.trans h4).trans h3).trans h2).trans h1

lemma parse_arrayF_fail {fuel : ℕ} {s : List Char} (h : (parse_arrayF fuel s).2 = none) :
    (parse_arrayF fuel s).1 = s :=
  restore_of_cases (parse_arrayF_cases fuel s) h

lemma parse_objectF_fail {fuel : ℕ} {s : List Char} (h : (parse_objectF fuel s).2 = none) :
    (parse_objectF fuel s).1 = s :=
  restore_of_cases (parse_objectF_cases fuel s) h

lemma parse_try_head_some {p : List Char → List Char × Option JsonValue}
    {ps : List (List Char → List Char × Option JsonValue)} {s : List Char}
    (hsome : (p s).2 ≠ none) : parse_try s (p :: ps) = p s := by
  rcases e : p s with ⟨s1, v⟩
  cases v
  · rw [e] at hsome; simp at hsome
  · simp only [parse_try, e]

lemma parse_try_step_fail {p : List Char → List Char × Option JsonValue}
    {ps : List (List Char → List Char × Option JsonValue)} {s : List Char}
    (hfail : (p s).2 = none) (hrest : (p s).1 = s) :
    parse_try s (p :: ps) = parse_try s ps := by
  rcases e : p s with ⟨s1, v⟩
  cases v
  · have hs : s1 = s := by rw [e] at hrest; exact hrest
    subst hs
    simp only [parse_try, e]
  · rw [e] at hfail; simp at hfail

lemma parse_valueF_fail_of_le : ∀ (fuel : ℕ) (s : List Char),
    digitsToNat (s.takeWhile is_ascii_digit) ≤ i64MaxNat →
    (parse_valueF fuel s).2 = none → (parse_valueF fuel s).1 = s := by
  intro fuel s hle h
  cases fuel with
  | zero => rfl
  | succ f =>
    unfold parse_valueF at h ⊢
    by_cases c1 : (parse_null s).2 = none
    case neg => rw [parse_try_head_some c1] at h; exact absurd h c1
    rw [parse_try_step_fail c1 (parse_null_fail c1)] at h ⊢
    by_cases c2 : (parse_bool s).2 = none
    case neg => rw [parse_try_head_some c2] at h; exact absurd h c2
    rw [parse_try_step_fail c2 (parse_bool_fail c2)] at h ⊢
    by_cases c3 : (parse_float s).2 = none
    case neg => rw [parse_try_head_some c3] at h; exact absurd h c3
    rw [parse_try_step_fail c3 (parse_float_fail c3)] at h ⊢
    by_cases c4 : (parse_integer s).2 = none
    case neg => rw [parse_try_head_some c4] at h; exact absurd h c4
    rw [parse_try_step_fail c4 (parse_integer_fail_of_le hle c4)] at h ⊢
    by_cases c5 : (parse_string s).2 = none
    case neg => rw [parse_try_head_some c5] at h; exact absurd h c5
    rw [parse_try_step_fail c5 (parse_string_fail c5)] at h ⊢
    by_cases c6 : (parse_arrayF f s).2 = none
    case neg => rw [parse_try_head_some c6] at h; exact absurd h c6
    rw [parse_try_step_fail c6 (parse_arrayF_fail c6)] at h ⊢
    by_cases c7 : (parse_objectF f s).2 = none
    case neg => rw [parse_try_head_some c7] at h; exact absurd h c7
    rw [parse_try_step_fail c7 (parse_objectF_fail c7)] at h ⊢
    rfl

lemma takeWhile_all_append_stop (p : Char → Bool) (l r : List Char)
    (hall : ∀ c ∈ l, p c = true) (hstop : ∀ c t, r = c :: t → p c = false) :
    (l ++ r).takeWhile p = l ∧ (l ++ r).dropWhile p = r := by
  constructor
  · rw [takeWhile_append_of_all hall]
    cases r with
    | nil => simp
    | cons c t =>
      rw [takeWhile_nil_of_head (hstop c t rfl)]
      simp
  · rw [dropWhile_append_of_all hall]
    cases r with
    | nil => simp
    | cons c t => simp [List.dropWhile_cons, hstop c t rfl]

def bigNines : List Char := List.replicate 20 '9'

def objNoColon : List Char := '{' :: '"' :: 'a' :: '"' :: ' ' :: '1' :: '}' :: []

def objNoValue : List Char := '{' :: '"' :: 'a' :: '"' :: ':' :: ' ' :: '}' :: []

def objNoClose : List Char := '{' :: '"' :: 'a' :: '"' :: ':' :: ' ' :: '1' :: []

def arrNoClose : List Char := '[' :: '1' :: ',' :: ' ' :: '2' :: []

/-- C1 counterexample: the claim as stated fails on `parse_integer`: on an
input of twenty nines the decoded value overflows `i64`, no value is
returned, yet the digit run has been consumed, so the returned cursor is
the empty remainder rather than the original input. -/
theorem parse_integer_overflow_consumes_input :
    (parse_integer bigNines).2 = none ∧ (parse_integer bigNines).1 = [] ∧ bigNines ≠ [] :=
  ⟨rfl, rfl, by decide⟩

/-- C1 (amended): every parser except `parse_integer` restores the cursor
exactly on failure; `parse_integer` restores it whenever its digit run is
empty or fits `i64` (on an overflowing run it consumes the run while
returning no value), and `parse_value` restores it on failure whenever
the leading digit run of its input fits `i64`. -/
theorem failure_restores_cursor_amended :
    (∀ s, (parse_null s).2 = none → (parse_null s).1 = s) ∧
    (∀ s, (parse_bool s).2 = none → (parse_bool s).1 = s) ∧
    (∀ s, (parse_float s).2 = none → (parse_float s).1 = s) ∧
    (∀ s, (parse_string s).2 = none → (parse_string s).1 = s) ∧
    (∀ fuel s, (parse_arrayF fuel s).2 = none → (parse_arrayF fuel s).1 = s) ∧
    (∀ fuel s, (parse_objectF fuel s).2 = none → (parse_objectF fuel s).1 = s) ∧
    (∀ s, digitsToNat (s.takeWhile is_ascii_digit) ≤ i64MaxNat →
      (parse_integer s).2 = none → (parse_integer s).1 = s) ∧
    (∀ fuel s, digitsToNat (s.takeWhile is_ascii_digit) ≤ i64MaxNat →
      (parse_valueF fuel s).2 = none → (parse_valueF fuel s).1 = s) :=
  ⟨fun _ h => parse_null_fail h, fun _ h => parse_bool_fail h, fun _ h => parse_float_fail h,
    fun _ h => parse_string_fail h, fun _ _ h => parse_arrayF_fail h,
    fun _ _ h => parse_objectF_fail h, fun _ h1 h2 => parse_integer_fail_of_le h1 h2,
    parse_valueF_fail_of_le⟩

/-- C1 witness: the amended theorem applied to the concrete input `x`,
on which the dispatcher fails with the cursor unchanged. -/
theorem failure_restores_cursor_amended_witness :
    (parse_value ("x".data)).1 = "x".data :=
  failure_restores_cursor_amended.2.2.2.2.2.2.2 (parserFuel ("x".data)) ("x".data)
    (by decide) rfl

/-- C2: on the accepted input `0.1` the whole part is `0` and the
fractional run is the single digit `1`, so the claimed value is
`0 + 1/10^1`; the normalization loop, whose guard requires `1.0 < frac`,
performs no division there and the code returns `Float 1` instead.  The
repeated-division loop is therefore not equivalent to one division by 10
per fractional digit. -/
theorem parse_float_zero_point_one_bug :
    parse_float ("0.1".data) = ([], some (JsonValue.Float 1)) ∧
    (1 : ℚ) ≠ 0 + 1 / 10 ^ 1 := by
  constructor
  · have h0 : parse_float ("0.1".data) =
        ([], some (JsonValue.Float (((0 : Int) : ℚ) + normLoop 64 (((1 : Int) : ℚ))))) := rfl
    rw [h0]
    have hval : ((0 : Int) : ℚ) + normLoop 64 (((1 : Int) : ℚ)) = 1 := by
      have h1 : ((1 : Int) : ℚ) = 1 := by norm_num
      rw [h1, normLoop_of_not_lt (by norm_num) 64]
      norm_num
    rw [hval]
  · norm_num

/-- C3: `parse_integer` consumes exactly the maximal leading ASCII-digit
run and returns no value when that run is empty, no value (without
panicking or wrapping, the embedding being total) when the decoded value
exceeds `i64::MAX`, and the decoded `Integer` otherwise. -/
theorem parse_integer_maximal_run_spec : ∀ s : List Char,
    parse_integer s =
      (s.dropWhile is_ascii_digit,
        if s.takeWhile is_ascii_digit = [] then none
        else if digitsToNat (s.takeWhile is_ascii_digit) ≤ i64MaxNat then
          some (JsonValue.Integer ((digitsToNat (s.takeWhile is_ascii_digit) : Int)))
        else none) :=
  parse_integer_eq

/-- C4: `parse_value` tries the parsers in the fixed priority order null,
boolean, float, integer, string, array, object via `parse_try`, which
returns the first success; on `3.5` it returns `Float 3.5` with the whole
input consumed, while `parse_integer` alone would return `Integer 3` with
`.5` left over. -/
theorem parse_value_priority_order :
    (∀ fuel s, parse_valueF (fuel + 1) s =
      parse_try s [parse_null, parse_bool, parse_float, parse_integer, parse_string,
        parse_arrayF fuel, parse_objectF fuel]) ∧
    parse_value ("3.5".data) = ([], some (JsonValue.Float (7 / 2))) ∧
    parse_integer ("3.5".data) = ('.' :: '5' :: [], some (JsonValue.Integer 3)) := by
  refine ⟨fun fuel s => rfl, ?_, rfl⟩
  have h0 : parse_value ("3.5".data) =
      ([], some (JsonValue.Float (((3 : Int) : ℚ) + normLoop 64 (((5 : Int) : ℚ))))) := rfl
  rw [h0]
  have hval : ((3 : Int) : ℚ) + normLoop 64 (((5 : Int) : ℚ)) = 7 / 2 := by
    have h5 : ((5 : Int) : ℚ) = 5 := by norm_num
    have h3 : ((3 : Int) : ℚ) = 3 := by norm_num
    rw [h5, h3, show (64 : ℕ) = 63 + 1 from rfl, normLoop_step (by norm_num)]
    rw [normLoop_of_not_lt (by norm_num)]
    norm_num
  rw [hval]

/-- C5: a failing `parse_object` or `parse_array` always returns the
original cursor with no value (hard failure is atomic), and each listed
malformed input (a parsed key not followed by a colon, a colon not
followed by a value, a missing closing brace, a missing closing bracket)
fails in exactly that way, discarding everything parsed so far. -/
theorem composite_hard_failure_atomic :
    (∀ fuel s, (parse_objectF fuel s).2 = none → (parse_objectF fuel s).1 = s) ∧
    (∀ fuel s, (parse_arrayF fuel s).2 = none → (parse_arrayF fuel s).1 = s) ∧
    parse_object objNoColon = (objNoColon, none) ∧
    parse_object objNoValue = (objNoValue, none) ∧
    parse_object objNoClose = (objNoClose, none) ∧
    parse_array arrNoClose = (arrNoClose, none) :=
  ⟨fun _ _ h => parse_objectF_fail h, fun _ _ h => parse_arrayF_fail h, rfl, rfl, rfl, rfl⟩

/-- C5 witness: the atomicity theorem applied to the missing-colon
input. -/
theorem composite_hard_failure_atomic_witness :
    (parse_object objNoColon).1 = objNoColon :=
  composite_hard_failure_atomic.1 (parserFuel objNoColon) objNoColon rfl

/-- C6: on `true false` the entry point returns the trailing-input kind
error whose message embeds the unconsumed remainder (and in particular
the text `false`), and it returns a decoded value only when the remainder
after parsing the trimmed input is empty. -/
theorem from_str_trailing_input_spec :
    from_str ("true false".data) =
      Except.error (("failed to parse entire value, reminder: \" false\"").data) ∧
    (∃ pre post, ("failed to parse entire value, reminder: \" false\"").data =
      pre ++ ("false".data) ++ post) ∧
    (∀ s v, from_str s = Except.ok v → parse_value (rustTrim s) = ([], some v)) := by
  refine ⟨rfl, ⟨("failed to parse entire value, reminder: \" ").data, ("\"").data,
    by decide⟩, ?_⟩
  intro s v h
  unfold from_str at h
  split at h
  · simp at h
  · rename_i rest value heq
    split at h
    · rename_i hemp
      simp only [Except.ok.injEq] at h
      rw [heq, List.isEmpty_iff.1 hemp, h]
    · simp at h

/-- C6 witness: the only-on-empty-remainder direction applied to the
fully consumed input `true`. -/
theorem from_str_trailing_input_spec_witness :
    parse_value (rustTrim ("true".data)) = ([], some (JsonValue.Bool true)) :=
  from_str_trailing_input_spec.2.2 ("true".data) (JsonValue.Bool true) rfl

/-- C7: `parse_string` requires an opening quote and fails restoring the
cursor without one or without a closing quote; a successful parse
decomposes the input as the opening quote, the decoded content verbatim
(each escaped quote kept together with its backslash), the closing quote
and the remainder; on the quoted input `a\"b` the escaped quote is
consumed as literal content and the backslash is not stripped. -/
theorem parse_string_escaped_quote_spec :
    (∀ s, s.head? ≠ some '"' → parse_string s = (s, none)) ∧
    (∀ s, (parse_string s).2 = none → (parse_string s).1 = s) ∧
    (∀ s r out, parse_string s = (r, some (JsonValue.String out)) →
      s = '"' :: (out ++ '"' :: r)) ∧
    parse_string ('"' :: 'a' :: '\\' :: '"' :: 'b' :: '"' :: []) =
      ([], some (JsonValue.String ('a' :: '\\' :: '"' :: 'b' :: []))) :=
  ⟨fun _ h => parse_string_no_open h, fun _ h => parse_string_fail h,
    fun _ _ _ h => parse_string_sound h, rfl⟩

/-- C7 witness: the decomposition direction applied to the concrete
escaped-quote input. -/
theorem parse_string_escaped_quote_spec_witness :
    ('"' :: 'a' :: '\\' :: '"' :: 'b' :: '"' :: []) =
      '"' :: (('a' :: '\\' :: '"' :: 'b' :: []) ++ '"' :: []) :=
  parse_string_escaped_quote_spec.2.2.1 _ _ _ rfl

/-- C8: for every parser in the system the returned cursor is a suffix
of the input cursor, and `parse_try` preserves this whenever every parser
of its list does. -/
theorem returned_cursor_is_suffix :
    (∀ s c, (parse_char s c).1 <:+ s) ∧
    (∀ s q, (parse_sequence s q).1 <:+ s) ∧
    (∀ s p, (parse_span s p).1 <:+ s) ∧
    (∀ s, (parse_whitespaces s).1 <:+ s) ∧
    (∀ s, (parse_null s).1 <:+ s) ∧
    (∀ s, (parse_bool s).1 <:+ s) ∧
    (∀ s, (parse_integer s).1 <:+ s) ∧
    (∀ s, (parse_float s).1 <:+ s) ∧
    (∀ s, (parse_string s).1 <:+ s) ∧
    (∀ fuel s, (parse_valueF fuel s).1 <:+ s) ∧
    (∀ fuel s, (parse_arrayF fuel s).1 <:+ s) ∧
    (∀ fuel s, (parse_objectF fuel s).1 <:+ s) ∧
    (∀ s, (parse_value s).1 <:+ s) ∧
    (∀ s, (parse_array s).1 <:+ s) ∧
    (∀ s, (parse_object s).1 <:+ s) ∧
    (∀ s ps, (∀ p ∈ ps, ∀ t, (p t).1 <:+ t) → (parse_try s ps).1 <:+ s) :=
  ⟨suffix_parse_char, suffix_parse_sequence, suffix_parse_span, suffix_parse_whitespaces,
    suffix_parse_null, suffix_parse_bool, suffix_parse_integer, suffix_parse_float,
    suffix_parse_string, fun fuel s => (suffix_mutual fuel).1 s,
    fun fuel s => (suffix_mutual fuel).2.1 s, fun fuel s => (suffix_mutual fuel).2.2.2.2 s,
    fun s => (suffix_mutual _).1 s, fun s => (suffix_mutual _).2.1 s,
    fun s => (suffix_mutual _).2.2.2.2 s, fun s ps h => suffix_parse_try ps s h⟩

/-- C8 witness: the `parse_try` component applied to a concrete input
with the empty parser list. -/
theorem returned_cursor_is_suffix_witness :
    (parse_try ("ab".data) []).1 <:+ ("ab".data) :=
  returned_cursor_is_suffix.2.2.2.2.2.2.2.2.2.2.2.2.2.2.2 ("ab".data) [] (by simp)

/-- C9: `parse_span` always succeeds: the consumed span concatenated
with the returned remainder reconstructs the input, every character of
the span satisfies the predicate, and the remainder is empty or starts
with a character violating the predicate (the span is maximal). -/
theorem parse_span_total_and_maximal :
    ∀ (p : Char → Bool) (s : List Char),
      (parse_span s p).2 ++ (parse_span s p).1 = s ∧
      (∀ c ∈ (parse_span s p).2, p c = true) ∧
      (∀ c t, (parse_span s p).1 = c :: t → p c = false) := by
  intro p s
  refine ⟨List.takeWhile_append_dropWhile p s, ?_, ?_⟩
  · intro c hc
    exact List.mem_takeWhile_imp hc
  · intro c t h
    exact dropWhile_head_false h

/-- C9 witness: the maximality component applied to the input `12a`
with the ASCII-digit predicate. -/
theorem parse_span_total_and_maximal_witness :
    is_ascii_digit 'a' = false :=
  (parse_span_total_and_maximal is_ascii_digit ("12a".data)).2.2 'a' [] rfl

/-- C10: when the leading digit run overflows `i64` and is followed by a
dot and a nonempty digit run that fits, `parse_float` succeeds, consumes
all of those characters, and returns the float built as if the whole part
were 0. -/
theorem parse_float_overflowed_whole_is_zero :
    ∀ (ds fs rest : List Char),
      ds ≠ [] → (∀ c ∈ ds, is_ascii_digit c = true) → i64MaxNat < digitsToNat ds →
      fs ≠ [] → (∀ c ∈ fs, is_ascii_digit c = true) → digitsToNat fs ≤ i64MaxNat →
      (∀ c t, rest = c :: t → is_ascii_digit c = false) →
      parse_float (ds ++ '.' :: (fs ++ rest)) =
        (rest, some (JsonValue.Float (((0 : Int) : ℚ) +
          normLoop 64 (((digitsToNat fs : Int) : ℚ))))) := by
  intro ds fs rest hdne hdall hdover hfne hfall hfle hrest
  have hsplit1 := takeWhile_all_append_stop is_ascii_digit ds ('.' :: (fs ++ rest)) hdall
    (fun c t h => by injection h with h1 h2; rw [← h1]; decide)
  have hti : parse_integer (ds ++ '.' :: (fs ++ rest)) = ('.' :: (fs ++ rest), none) := by
    rw [parse_integer_eq, hsplit1.1, hsplit1.2]
    rw [if_neg hdne, if_neg (not_le.2 hdover)]
  have hsplit2 := takeWhile_all_append_stop is_ascii_digit fs rest hfall hrest
  have hfi : parse_integer (fs ++ rest) =
      (rest, some (JsonValue.Integer ((digitsToNat fs : Int)))) := by
    rw [parse_integer_eq, hsplit2.1, hsplit2.2]
    rw [if_neg hfne, if_pos hfle]
  unfold parse_float
  rw [hti]
  dsimp only
  rw [show parse_char ('.' :: (fs ++ rest)) '.' = (fs ++ rest, some '.') from by
    simp [parse_char]]
  dsimp only
  rw [hfi]
  simp

/-- C10 witness: the theorem applied to twenty nines, a dot and the
digit 5, whose value is 0.5. -/
theorem parse_float_overflowed_whole_is_zero_witness :
    parse_float (bigNines ++ '.' :: ('5' :: [])) = ([], some (JsonValue.Float (1 / 2))) := by
  have h := parse_float_overflowed_whole_is_zero bigNines ('5' :: []) [] (by decide)
    (by decide) (by decide) (by decide) (by decide) (by decide) (by simp)
  simp only [List.append_nil] at h
  rw [h]
  have hval : ((0 : Int) : ℚ) + normLoop 64 (((digitsToNat ('5' :: []) : Int) : ℚ)) = 1 / 2 := by
    have h5 : ((digitsToNat ('5' :: []) : Int) : ℚ) = 5 := by
      have hd : digitsToNat ('5' :: []) = 5 := by decide
      rw [hd]
      norm_num
    rw [h5, show (64 : ℕ) = 63 + 1 from rfl, normLoop_step (by norm_num)]
    rw [normLoop_of_not_lt (by norm_num)]
    norm_num
  rw [hval]
